import Mathlib

/-!
Shallow embedding of `stan/model.py` from the pystan repository: the
multi-chain sampling orchestrator (`Model.sample`), the data normalizer
(`_make_json_serializable`), the log classifier and the top-level
exception handling of `sample`, `build` and the parameter-transform calls.

Modelling conventions:
* Python strings are `List Char` (`Str`), dictionaries are association
  lists, and the remote httpstan service is a record of response
  functions (`Server`).
* Network interaction is recorded as a trace of `Request` values.
* The unbounded polling loop runs on explicit fuel; running out of fuel
  is the distinguished outcome `Err.fuelOut`, representing a schedule
  under which the source loop has not yet terminated (the source imposes
  no bound, so every finite execution is covered by some fuel).
* Python exceptions become the `Err` / `PyExc` inductives and
  `Except`-valued functions.
-/

set_option maxRecDepth 4000

namespace PyStan

/-- Python strings, modelled as lists of characters. -/
abbrev Str := List Char

/-- View of a Lean string literal as the model string type. -/
def str (s : String) : Str := s.data

/-- Python `s.startswith(pre)`. -/
def startswith (s pre : Str) : Bool :=
  match pre, s with
  | [], _ => true
  | _ :: _, [] => false
  | p :: ps, c :: cs => c == p && startswith cs ps
termination_by structural pre

/-- Exceptions raised inside the orchestrator (`model.py`). `fuelOut` is
not a Python exception: it marks a run whose polling loop has not
terminated within the supplied fuel (the source loops without bound). -/
inductive Err where
  | assertionError (msg : Str)
  | valueError (msg : Str)
  | runtimeError (msg : Str)
  | typeError (msg : Str)
  | indexError
  | keyError
  | fuelOut
deriving Repr, DecidableEq

/-! ## Log classifier (model.py lines 188–211) -/

/-- A parsed logger record, `{topic, values:[text, ...]}` (section 6 of
the spec). -/
structure LoggerMsg where
  topic : Str
  values : List Str
deriving Repr, DecidableEq

/-- Reading `msg["values"][0]`. Every record reaching the classifier in
the source carries at least one value; an empty list would raise, which
never happens on classifier inputs, so a default is used. -/
def values0 (msg : LoggerMsg) : Str := msg.values.headD []

/-- Model of `is_nonempty_logger_message` (model.py lines 188–189). -/
def is_nonempty_logger_message (msg : LoggerMsg) : Bool :=
  msg.topic == str "logger" && values0 msg != str "info:"

/-- Model of `is_iteration_or_elapsed_time_logger_message`
(model.py lines 191–199). -/
def is_iteration_or_elapsed_time_logger_message (msg : LoggerMsg) : Bool :=
  let text := values0 msg
  startswith text (str "info:Iteration:") ||
  startswith text (str "info: Elapsed Time:") ||
  startswith text (str "info:" ++ List.replicate 15 ' ')

/-- A record is collected as notable (model.py line 210) iff it is a
nonempty logger message and not an iteration / elapsed-time message. -/
def isNotable (msg : LoggerMsg) : Bool :=
  is_nonempty_logger_message msg && !is_iteration_or_elapsed_time_logger_message msg

/-! ## Data normalizer (`_make_json_serializable`, model.py lines 22–53) -/

/-- Python values as the normalizer distinguishes them: values on which
`json.dumps` succeeds, zero-dimensional numpy arrays, array-like
collections, and everything else. -/
inductive PyValue where
  | pyInt (n : Int)
  | pyList (vs : List PyValue)
  | npScalar (n : Int)
  | npArray (vs : List PyValue)
  | unserializable

/-- The element list of a native list value (used only to state the
recursion equations of `tolist`). -/
def PyValue.pyListElems : PyValue → List PyValue
  | .pyList vs => vs
  | _ => []

mutual

/-- Whether `json.dumps(value)` succeeds (model.py line 40): native
scalars are serializable, a native list is serializable when all its
elements are, numpy values and other objects are not. -/
def jsonSerializable : PyValue → Bool
  | .pyInt _ => true
  | .npScalar _ => false
  | .npArray _ => false
  | .unserializable => false
  | .pyList vs => jsonSerializableList vs

/-- Elementwise serializability of a list value. -/
def jsonSerializableList : List PyValue → Bool
  | [] => true
  | v :: vs => jsonSerializable v && jsonSerializableList vs

end

@[simp] theorem jsonSerializable_pyInt (n : Int) :
    jsonSerializable (.pyInt n) = true := rfl

@[simp] theorem jsonSerializable_npScalar (n : Int) :
    jsonSerializable (.npScalar n) = false := rfl

@[simp] theorem jsonSerializable_npArray (vs : List PyValue) :
    jsonSerializable (.npArray vs) = false := rfl

@[simp] theorem jsonSerializable_unserializable :
    jsonSerializable .unserializable = false := rfl

@[simp] theorem jsonSerializable_pyList_nil :
    jsonSerializable (.pyList []) = true := rfl

@[simp] theorem jsonSerializable_pyList_cons (v : PyValue) (vs : List PyValue) :
    jsonSerializable (.pyList (v :: vs)) =
      (jsonSerializable v && jsonSerializable (.pyList vs)) := rfl

@[simp] theorem jsonSerializableList_eq (vs : List PyValue) :
    jsonSerializableList vs = jsonSerializable (.pyList vs) := rfl

/-- `isinstance(value, np.ndarray) and value.ndim == 0` (model.py line 46). -/
def isNdarray0d : PyValue → Bool
  | .npScalar _ => true
  | _ => false

/-- `isinstance(value, collections.abc.Collection)` (model.py line 49). -/
def isCollection : PyValue → Bool
  | .pyList _ => true
  | .npArray _ => true
  | _ => false

mutual

/-- `np.asarray(value).tolist()` (model.py lines 47 and 50): recursively
convert numpy containers and scalars to native ones (objects numpy
cannot convert stay as they are). -/
def tolist : PyValue → PyValue
  | .pyInt n => .pyInt n
  | .npScalar n => .pyInt n
  | .npArray vs => .pyList (tolistList vs)
  | .pyList vs => .pyList (tolistList vs)
  | .unserializable => .unserializable

/-- Elementwise `tolist` over the members of a container. -/
def tolistList : List PyValue → List PyValue
  | [] => []
  | v :: vs => tolist v :: tolistList vs

end

@[simp] theorem tolist_pyInt (n : Int) : tolist (.pyInt n) = .pyInt n := rfl

@[simp] theorem tolist_npScalar (n : Int) : tolist (.npScalar n) = .pyInt n := rfl

@[simp] theorem tolist_unserializable : tolist .unserializable = .unserializable := rfl

@[simp] theorem tolist_npArray_nil : tolist (.npArray []) = .pyList [] := rfl

@[simp] theorem tolist_pyList_nil : tolist (.pyList []) = .pyList [] := rfl

theorem tolist_npArray_cons (v : PyValue) (vs : List PyValue) :
    tolist (.npArray (v :: vs)) =
      .pyList (tolist v :: (tolist (.npArray vs)).pyListElems) := rfl

theorem tolist_pyList_cons (v : PyValue) (vs : List PyValue) :
    tolist (.pyList (v :: vs)) =
      .pyList (tolist v :: (tolist (.pyList vs)).pyListElems) := rfl

/-- Model of `_make_json_serializable` (model.py lines 22–53). The
source copies the dictionary up front (line 36) and then rewrites values
in the copy, so the function is pure in the caller's mapping; the
embedding is accordingly a pure function from the input association list
to a new one. Iteration order of `data.items()` is the list order. -/
def _make_json_serializable : List (Str × PyValue) → Except Err (List (Str × PyValue))
  | [] => .ok []
  | (k, v) :: rest =>
    if jsonSerializable v then
      (_make_json_serializable rest).map (fun tail => (k, v) :: tail)
    else if isNdarray0d v then
      (_make_json_serializable rest).map (fun tail => (k, tolist v) :: tail)
    else if isCollection v then
      (_make_json_serializable rest).map (fun tail => (k, tolist v) :: tail)
    else
      .error (.typeError k)

/-! ## Top-level exception routing (model.py lines 238–241, 277, 304,
336, 370, 431–434) -/

/-- Exceptions as seen at the `asyncio.run` boundary. -/
inductive PyExc where
  | keyboardInterrupt
  | runtimeError (msg : Str)
  | otherExc
deriving Repr, DecidableEq

/-- A top-level body wrapped in `try: return asyncio.run(go()) except
KeyboardInterrupt: return` — the interrupt is swallowed and the call
yields no result (`none`). -/
def runSwallowKI {α : Type} (inner : Except PyExc α) : Except PyExc (Option α) :=
  match inner with
  | .error .keyboardInterrupt => .ok none
  | .error e => .error e
  | .ok a => .ok (some a)

/-- A top-level body that is just `return asyncio.run(go())` with no
handler: every exception propagates. -/
def runPlain {α : Type} (inner : Except PyExc α) : Except PyExc (Option α) :=
  match inner with
  | .error e => .error e
  | .ok a => .ok (some a)

/-- `Model.sample`'s top level (model.py lines 238–241): has the
`except KeyboardInterrupt` clause. -/
def sample_top {α : Type} (inner : Except PyExc α) : Except PyExc (Option α) :=
  runSwallowKI inner

/-- `build`'s top level (model.py lines 431–434): has the
`except KeyboardInterrupt` clause. -/
def build_top {α : Type} (inner : Except PyExc α) : Except PyExc (Option α) :=
  runSwallowKI inner

/-- `Model.constrain_pars`'s top level (model.py line 277): a bare
`return asyncio.run(go())`, no handler. -/
def constrain_pars_top {α : Type} (inner : Except PyExc α) : Except PyExc (Option α) :=
  runPlain inner

/-- `Model.unconstrain_pars`'s top level (model.py line 304): no handler. -/
def unconstrain_pars_top {α : Type} (inner : Except PyExc α) : Except PyExc (Option α) :=
  runPlain inner

/-- `Model.log_prob`'s top level (model.py line 336): no handler. -/
def log_prob_top {α : Type} (inner : Except PyExc α) : Except PyExc (Option α) :=
  runPlain inner

/-- `Model.grad_log_prob`'s top level (model.py line 370): no handler. -/
def grad_log_prob_top {α : Type} (inner : Except PyExc α) : Except PyExc (Option α) :=
  runPlain inner

/-! ## The sampling orchestrator (`Model.sample`, model.py lines 76–241)

The data model: a per-chain initial-value mapping, caller keyword
arguments, the per-chain request payload, the server-side operation
resource, and the remote service itself as a record of response
functions. -/

/-- One initial-value mapping (contents never inspected by the
orchestrator, only moved into the per-chain payload). -/
abbrev Init := List (Str × Nat)

/-- The model descriptor fields that `Model.sample` reads. The remaining
fields of the source dataclass (program code, parameter metadata) are
only copied into the final result and play no role in any claim. -/
structure Model where
  model_name : Str
  data : List (Str × PyValue)
  random_seed : Option Nat

/-- The keyword arguments of `Model.sample`: the two arguments it pops
(`num_chains`, `init`) and the remaining option mapping that is copied
into every per-chain payload.  `assert`-checked key membership concerns
`opts`. -/
structure KwArgs where
  num_chains : Option Nat
  init : Option (List Init)
  opts : List (Str × Nat)

/-- Membership of a key in an option mapping. -/
def hasKey (opts : List (Str × Nat)) (k : Str) : Bool :=
  opts.any fun p => p.1 == k

/-- `payload.get(key, default)` over the option mapping. -/
def getOpt (opts : List (Str × Nat)) (k : Str) (d : Nat) : Nat :=
  match opts.find? (fun p => p.1 == k) with
  | some p => p.2
  | none => d

/-- Default for `num_warmup` from httpstan's argument tables (external to
this repository); the exact value plays no role in any claim. -/
def default_num_warmup : Nat := 1000

/-- Default for `num_samples` (external httpstan table). -/
def default_num_samples : Nat := 1000

/-- Default for `num_thin` (external httpstan table). -/
def default_num_thin : Nat := 1

/-- Default for `save_warmup` (external httpstan table; boolean encoded
as a number). -/
def default_save_warmup : Nat := 0

/-- The per-chain request payload built at model.py lines 102–124. -/
structure Payload where
  function : Str
  opts : List (Str × Nat)
  chain : Nat
  data : List (Str × PyValue)
  init : Init
  random_seed : Option Nat

/-- The `result` member of a finished operation: either a fit resource
with a `name`, or an error payload with `code` and `message` (the code
is the decimal rendering of the numeric status). -/
inductive OpResult where
  | ok (name : Str)
  | err (code : Str) (message : Str)
deriving Repr, DecidableEq

/-- A server-side operation resource as the orchestrator sees it:
`{name, done, metadata:{progress?}, result?}`. -/
structure Operation where
  name : Str
  done : Bool
  progress : Option Str
  result : Option OpResult
deriving Repr, DecidableEq

/-- One HTTP request issued by the orchestrator, for the interaction
trace. -/
inductive Request where
  | createFit (chain : Nat)
  | getOperation (name : Str)
  | getFit (name : Str)
  | deleteFit (name : Str)
deriving Repr, DecidableEq

/-- The remote httpstan service, as a record of response functions. The
`poll` field is indexed by the number of operation-poll requests issued
so far, so an arbitrary completion schedule (any interleaving of chains
becoming `done`) can be expressed.  A `GET` on an operation returns the
complete resource, so the source's `operation.update(...)` amounts to
replacing the local copy. -/
structure Server where
  createStatus : Nat → Nat
  createMessage : Nat → Str
  createOp : Nat → Operation
  poll : Nat → Str → Operation
  fitStatus : Str → Nat
  fitBytes : Str → Str
  fitMessage : Str → Str
  deleteStatus : Str → Nat
  deleteMessage : Str → Str

/-- Python `list.pop(0)`.  Call sites in `sample` guard the list to be
nonempty (popping an empty list would raise IndexError), so the empty
case carries a default. -/
def popFront : List Init → Init × List Init
  | [] => ([], [])
  | x :: xs => (x, xs)

/-- The payload-construction loop (model.py lines 102–124) over an
explicit list of chain ids, threading the caller's `init` list through
the destructive `init.pop(0)` calls.  The second component is the final
state of the caller-supplied list (in Python `init` aliases the caller's
list, so the pops are visible to the caller). -/
def buildPayloadsFrom (m : Model) (opts : List (Str × Nat)) :
    List Nat → List Init → List Payload × List Init
  | [], init => ([], init)
  | c :: rest, init =>
    let payload : Payload :=
      { function := str "stan::services::sample::hmc_nuts_diag_e_adapt"
        opts := opts
        chain := c
        data := m.data
        init := (popFront init).1
        random_seed := m.random_seed }
    let r := buildPayloadsFrom m opts rest (popFront init).2
    (payload :: r.1, r.2)

/-- `range(1, num_chains + 1)`. -/
def chainIds (n : Nat) : List Nat := (List.range n).map (· + 1)

/-- Payload construction for chains `1..num_chains`. -/
def buildPayloads (m : Model) (opts : List (Str × Nat)) (num_chains : Nat)
    (init : List Init) : List Payload × List Init :=
  buildPayloadsFrom m opts (chainIds num_chains) init

/-! ### The progress regex `Iteration:\s+(\d+)\s+/\s+(\d+)` -/

/-- Python regex whitespace, restricted to the characters that occur in
Stan progress messages. -/
def isWs (c : Char) : Bool :=
  c == ' ' || c == '\t' || c == '\n' || c == '\r'

/-- Strip a literal from the front of a string, or fail. -/
def stripLit : Str → Str → Option Str
  | s, [] => some s
  | [], _ :: _ => none
  | c :: s, p :: ps => if c == p then stripLit s ps else none

/-- Take one or more leading characters satisfying `p` (the greedy `+`
quantifier over a character class). -/
def span1 (p : Char → Bool) (s : Str) : Option (Str × Str) :=
  let taken := s.takeWhile p
  if taken.isEmpty then none else some (taken, s.dropWhile p)

/-- Numeric value of a digit string (Python `int`). -/
def digitsVal (ds : Str) : Nat :=
  ds.foldl (fun acc c => 10 * acc + (c.toNat - '0'.toNat)) 0

/-- Match `Iteration:\s+(\d+)\s+/\s+(\d+)` anchored at the start of the
string, returning the two captured numbers.  The character classes of
adjacent pieces are disjoint, so the greedy scan equals the regex
semantics. -/
def matchIterAt (s : Str) : Option (Nat × Nat) := do
  let s1 ← stripLit s (str "Iteration:")
  let (_, s2) ← span1 isWs s1
  let (d1, s3) ← span1 Char.isDigit s2
  let (_, s4) ← span1 isWs s3
  let s5 ← stripLit s4 (str "/")
  let (_, s6) ← span1 isWs s5
  let (d2, _) ← span1 Char.isDigit s6
  return (digitsVal d1, digitsVal d2)

/-- First (leftmost) match of the iteration pattern in the string:
`findall(...)` followed by `.pop(0)` takes the first match. -/
def findIteration : Str → Option (Nat × Nat)
  | [] => none
  | c :: cs =>
    match matchIterAt (c :: cs) with
    | some r => some r
    | none => findIteration cs

/-! ### Polling (model.py lines 145–164) -/

/-- The observable state of the clikit progress bar: `get_max_steps()`
is zero until `start` is called. -/
structure PB where
  maxSteps : Nat
  progress : Nat
deriving Repr, DecidableEq

/-- The mutable context threaded through the polling sweeps:
`current_iterations`, the progress bar, and the number of operation-poll
requests issued so far (the server schedule index). -/
structure Aux where
  current : List (Str × Nat)
  pb : PB
  time : Nat
deriving Repr, DecidableEq

/-- The polling loop state: the operations list (updated in place, order
never changed) plus the context. -/
structure PollState where
  ops : List Operation
  aux : Aux
deriving Repr, DecidableEq

/-- `current_iterations[name] = iteration`: insert or update, preserving
insertion order. -/
def dictInsert : List (Str × Nat) → Str → Nat → List (Str × Nat)
  | [], k, v => [(k, v)]
  | (k0, v0) :: rest, k, v =>
    if k0 == k then (k0, v) :: rest else (k0, v0) :: dictInsert rest k v

/-- `sum(current_iterations.values())`. -/
def sumValues (l : List (Str × Nat)) : Nat :=
  (l.map fun p => p.2).sum

/-- Handling of one fetched operation state's progress message
(model.py lines 154–163): skip when absent or empty; otherwise take the
first regex match (`findall(...).pop(0)` raises IndexError when there is
none), lazily start the progress bar at `iteration_max * num_chains`,
record the chain's latest iteration and redisplay the sum. -/
def processProgress (nc : Nat) (op : Operation) (aux : Aux) : Except Err Aux :=
  match op.progress with
  | none => .ok aux
  | some msg =>
    if msg.isEmpty then .ok aux
    else
      match findIteration msg with
      | none => .error .indexError
      | some (iteration, iteration_max) =>
        let pb0 := if aux.pb.maxSteps == 0
          then { maxSteps := iteration_max * nc, progress := aux.pb.progress }
          else aux.pb
        let current := dictInsert aux.current op.name iteration
        let pb1 := { pb0 with progress := sumValues current }
        .ok { aux with current := current, pb := pb1 }

/-- One polling sweep (the `for operation in operations` loop, model.py
lines 148–163): skip finished operations, re-fetch the others and process
their progress, replacing each local copy with the fetched state. -/
def sweepOps (server : Server) (nc : Nat) :
    List Operation → Aux → List Request × Except Err (List Operation × Aux)
  | [], aux => ([], .ok ([], aux))
  | op :: rest, aux =>
    if op.done then
      let (reqs, r) := sweepOps server nc rest aux
      (reqs, r.map fun x => (op :: x.1, x.2))
    else
      let newOp := server.poll aux.time op.name
      let aux1 : Aux := { aux with time := aux.time + 1 }
      match processProgress nc newOp aux1 with
      | .error e => ([Request.getOperation op.name], .error e)
      | .ok aux2 =>
        let (reqs, r) := sweepOps server nc rest aux2
        (Request.getOperation op.name :: reqs, r.map fun x => (newOp :: x.1, x.2))

/-- The polling loop (`while not all(...done...)`, model.py lines
147–164) on explicit fuel; each fuel unit is one full sweep. -/
def pollLoop (server : Server) (nc : Nat) : Nat → PollState → List Request × Except Err PollState
  | fuel, st =>
    if st.ops.all (fun op => op.done) then ([], .ok st)
    else
      match fuel with
      | 0 => ([], .error .fuelOut)
      | fuel' + 1 =>
        match sweepOps server nc st.ops st.aux with
        | (reqs, .error e) => (reqs, .error e)
        | (reqs, .ok (ops1, aux1)) =>
          let (reqs2, r) := pollLoop server nc fuel' { ops := ops1, aux := aux1 }
          (reqs ++ reqs2, r)

/-! ### Submission and retrieval (model.py lines 135–143 and 169–186) -/

/-- The submission loop: one POST per payload in chain order; a 422
response raises ValueError with the response detail, any other non-201
raises RuntimeError with the embedded message. -/
def submit (server : Server) : List Payload → List Request × Except Err (List Operation)
  | [] => ([], .ok [])
  | p :: rest =>
    let s := server.createStatus p.chain
    if s == 422 then
      ([Request.createFit p.chain], .error (.valueError (server.createMessage p.chain)))
    else if s != 201 then
      ([Request.createFit p.chain], .error (.runtimeError (server.createMessage p.chain)))
    else
      let (reqs, r) := submit server rest
      (Request.createFit p.chain :: reqs, r.map fun ops => server.createOp p.chain :: ops)

/-- The fit name recorded in a successful operation result (used to
state theorems about retrieval; the empty string for other shapes). -/
def fitNameOf (op : Operation) : Str :=
  match op.result with
  | some (.ok n) => n
  | _ => []

/-- The retrieval loop (model.py lines 169–186), in operations order:
a missing `result` raises KeyError; an error result whose code starts
with "2" trips the assert, any other error result raises RuntimeError
with the embedded message; otherwise the fit bytes are fetched (non-200
raises RuntimeError) and, exactly when the model has no random seed, the
fit resource is deleted immediately afterwards (a delete status outside
{200, 202, 204} raises RuntimeError). -/
def retrieve (server : Server) (seed : Option Nat) :
    List Operation → List Request × Except Err (List Str)
  | [] => ([], .ok [])
  | op :: rest =>
    match op.result with
    | none => ([], .error .keyError)
    | some (.err code message) =>
      if startswith code (str "2") then ([], .error (.assertionError (str "operation")))
      else ([], .error (.runtimeError message))
    | some (.ok fit_name) =>
      if server.fitStatus fit_name != 200 then
        ([Request.getFit fit_name], .error (.runtimeError (server.fitMessage fit_name)))
      else
        let out := server.fitBytes fit_name
        match seed with
        | some _ =>
          let (reqs, r) := retrieve server seed rest
          (Request.getFit fit_name :: reqs, r.map fun outs => out :: outs)
        | none =>
          let ds := server.deleteStatus fit_name
          if ds == 200 || ds == 202 || ds == 204 then
            let (reqs, r) := retrieve server seed rest
            (Request.getFit fit_name :: Request.deleteFit fit_name :: reqs,
              r.map fun outs => out :: outs)
          else
            ([Request.getFit fit_name, Request.deleteFit fit_name],
              .error (.runtimeError (server.deleteMessage fit_name)))

/-- The sampling result (`stan.fit.Fit`): chain outputs in chain-id
order plus the resolved quantities.  Parameter metadata fields are
omitted (copied verbatim from the model descriptor, irrelevant to the
claims). -/
structure Fit where
  stan_outputs : List Str
  num_chains : Nat
  num_warmup : Nat
  num_samples : Nat
  num_thin : Nat
  save_warmup : Nat
deriving Repr, DecidableEq

/-- The network part of `Model.sample` (the body of `go`, model.py lines
126–236): submit all payloads, poll until every operation is done,
retrieve the chain outputs in operations order, and assemble the Fit. -/
def sampleGo (m : Model) (server : Server) (fuel num_chains : Nat)
    (payloads : List Payload)
    (num_warmup num_samples num_thin save_warmup : Nat) :
    List Request × Except Err Fit :=
  let (reqs1, subRes) := submit server payloads
  match subRes with
  | .error e => (reqs1, .error e)
  | .ok ops =>
    let st0 : PollState := { ops := ops, aux := { current := [], pb := ⟨0, 0⟩, time := 0 } }
    let (reqs2, pollRes) := pollLoop server num_chains fuel st0
    match pollRes with
    | .error e => (reqs1 ++ reqs2, .error e)
    | .ok st =>
      let (reqs3, retRes) := retrieve server m.random_seed st.ops
      match retRes with
      | .error e => (reqs1 ++ reqs2 ++ reqs3, .error e)
      | .ok outs =>
        (reqs1 ++ reqs2 ++ reqs3,
          .ok { stan_outputs := outs
                num_chains := num_chains
                num_warmup := num_warmup
                num_samples := num_samples
                num_thin := num_thin
                save_warmup := save_warmup })

/-- `Model.sample` (model.py lines 76–241): the three precondition
asserts, the `num_chains` / `init` pops, the init-count check, payload
construction, and the network part.  No request is issued before the
precondition checks pass. -/
def Model.sample (m : Model) (kwargs : KwArgs) (server : Server) (fuel : Nat) :
    List Request × Except Err Fit :=
  if hasKey kwargs.opts (str "chain") then
    ([], .error (.assertionError (str "chain id is set automatically.")))
  else if hasKey kwargs.opts (str "data") then
    ([], .error (.assertionError (str "data is set in build.")))
  else if hasKey kwargs.opts (str "random_seed") then
    ([], .error (.assertionError (str "random_seed is set in build.")))
  else
    let num_chains := kwargs.num_chains.getD 4
    let init := kwargs.init.getD (List.replicate num_chains [])
    if init.length != num_chains then
      ([], .error (.valueError (str "Initial values must be provided for each chain.")))
    else
      let payloads := (buildPayloads m kwargs.opts num_chains init).1
      let num_warmup := getOpt kwargs.opts (str "num_warmup") default_num_warmup
      let num_samples := getOpt kwargs.opts (str "num_samples") default_num_samples
      let num_thin := getOpt kwargs.opts (str "num_thin") default_num_thin
      let save_warmup := getOpt kwargs.opts (str "save_warmup") default_save_warmup
      sampleGo m server fuel num_chains payloads num_warmup num_samples num_thin save_warmup

/-! ## Helper lemmas -/

/-- A string starting with `p ++ u` starts with `p`. -/
theorem startswith_of_startswith_append (p u t : Str)
    (h : startswith t (p ++ u) = true) : startswith t p = true := by
  induction p generalizing t with
  | nil => rfl
  | cons c ps ih =>
    cases t with
    | nil => simp [startswith] at h
    | cons a as =>
      simp only [List.cons_append, startswith, Bool.and_eq_true] at h ⊢
      exact ⟨h.1, ih as h.2⟩

/-! ## Claims about the log classifier (C3) -/

/-- C3 counterexample: the record whose single value is "info:" followed
by sixteen spaces and text.  The classifier treats it as an
iteration-or-elapsed-time message, because a string with sixteen spaces
after "info:" in particular starts with "info:" plus fifteen spaces
(model.py line 198 uses a prefix test), so the record is NOT notable —
the claim states a record with 16 spaces after "info:" is notable. -/
theorem sixteen_space_record_not_notable :
    is_iteration_or_elapsed_time_logger_message
      ⟨str "logger", [str "info:" ++ List.replicate 16 ' ' ++ str "x"]⟩ = true ∧
    isNotable ⟨str "logger", [str "info:" ++ List.replicate 16 ' ' ++ str "x"]⟩ = false :=
  ⟨rfl, rfl⟩

/-- Python `s.startswith(p)` holds exactly when `s` decomposes as `p`
followed by a remainder. -/
theorem startswith_iff_exists (t p : Str) :
    startswith t p = true ↔ ∃ r, t = p ++ r := by
  induction p generalizing t with
  | nil =>
    constructor
    · intro _; exact ⟨t, rfl⟩
    · intro _; rfl
  | cons c ps ih =>
    cases t with
    | nil =>
      constructor
      · intro h; simp [startswith] at h
      · rintro ⟨r, h⟩; simp at h
    | cons a as =>
      simp only [startswith, Bool.and_eq_true, beq_iff_eq, ih]
      constructor
      · rintro ⟨rfl, r, rfl⟩
        exact ⟨r, rfl⟩
      · rintro ⟨r, h⟩
        injection h with h1 h2
        exact ⟨h1, r, h2⟩

/-- C3 (amended): a parsed logger record is notable if and only if its
text is not exactly "info:" with no content, does not start with the
per-iteration prefix "info:Iteration:", does not start with the
elapsed-time prefix "info: Elapsed Time:", and does not start with
"info:" followed by AT LEAST fifteen spaces.  In particular records with
exactly 15 or with 16 spaces after "info:" are non-notable, while
records with 14 or fewer spaces after "info:" (and any other
info-prefixed text such as "info:foo", and any non-info record) are
notable. -/
theorem logger_record_notability (t : Str) :
    isNotable ⟨str "logger", [t]⟩ = true ↔
      ¬(t = str "info:"
        ∨ (∃ r, t = str "info:Iteration:" ++ r)
        ∨ (∃ r, t = str "info: Elapsed Time:" ++ r)
        ∨ (∃ r, t = (str "info:" ++ List.replicate 15 ' ') ++ r)) := by
  rw [← startswith_iff_exists t (str "info:Iteration:"),
    ← startswith_iff_exists t (str "info: Elapsed Time:"),
    ← startswith_iff_exists t (str "info:" ++ List.replicate 15 ' ')]
  simp only [isNotable, is_nonempty_logger_message,
    is_iteration_or_elapsed_time_logger_message, values0, List.headD_cons,
    Bool.and_eq_true, Bool.or_eq_true, Bool.not_eq_true', Bool.or_eq_false_iff,
    beq_self_eq_true, true_and, bne_iff_ne, not_or, Bool.not_eq_true]
  tauto

/-- C3 witness: the characterization applied at concrete records — an
info record matching no benign pattern and a 13-space continuation are
notable, while the 16-space continuation is non-notable. -/
theorem logger_record_notability_witness :
    isNotable ⟨str "logger", [str "info:foo"]⟩ = true
  ∧ isNotable ⟨str "logger", [str "info:" ++ List.replicate 13 ' ' ++ str "x"]⟩ = true
  ∧ isNotable ⟨str "logger", [str "info:" ++ List.replicate 16 ' ' ++ str "x"]⟩ = false := by
  refine ⟨(logger_record_notability _).mpr ?_, (logger_record_notability _).mpr ?_, rfl⟩
  · rintro (h | ⟨r, h⟩ | ⟨r, h⟩ | ⟨r, h⟩)
    · exact absurd h (by decide)
    · exact absurd ((startswith_iff_exists _ _).mpr ⟨r, h⟩) (by decide)
    · exact absurd ((startswith_iff_exists _ _).mpr ⟨r, h⟩) (by decide)
    · exact absurd ((startswith_iff_exists _ _).mpr ⟨r, h⟩) (by decide)
  · rintro (h | ⟨r, h⟩ | ⟨r, h⟩ | ⟨r, h⟩)
    · exact absurd h (by decide)
    · exact absurd ((startswith_iff_exists _ _).mpr ⟨r, h⟩) (by decide)
    · exact absurd ((startswith_iff_exists _ _).mpr ⟨r, h⟩) (by decide)
    · exact absurd ((startswith_iff_exists _ _).mpr ⟨r, h⟩) (by decide)

/-! ## Claims about top-level interrupt handling (C7) -/

/-- C7 counterexample: `Model.constrain_pars` (a parameter-transform
top-level call) has no KeyboardInterrupt handler (model.py line 277), so
an interrupt-driven cancellation propagates to the caller instead of
yielding no result — the claim states every top-level call swallows it. -/
theorem constrain_pars_interrupt_propagates :
    constrain_pars_top (Except.error PyExc.keyboardInterrupt : Except PyExc Nat)
      = .error .keyboardInterrupt
  ∧ constrain_pars_top (Except.error PyExc.keyboardInterrupt : Except PyExc Nat)
      ≠ .ok none :=
  ⟨rfl, fun h => Except.noConfusion h⟩

/-- C7 (amended): `sample` and `build` (compile) swallow an
interrupt-driven cancellation at the top level and yield no result,
while every other error and normal results pass through; the four
parameter-transform calls (`constrain_pars`, `unconstrain_pars`,
`log_prob`, `grad_log_prob`) have no handler, so a cancellation
propagates to the caller. -/
theorem top_level_interrupt_routing (α : Type) (a : α) (m : Str) :
    sample_top (Except.error PyExc.keyboardInterrupt : Except PyExc α) = .ok none
  ∧ build_top (Except.error PyExc.keyboardInterrupt : Except PyExc α) = .ok none
  ∧ sample_top (Except.ok a) = .ok (some a)
  ∧ sample_top (Except.error (PyExc.runtimeError m) : Except PyExc α)
      = .error (.runtimeError m)
  ∧ constrain_pars_top (Except.error PyExc.keyboardInterrupt : Except PyExc α)
      = .error .keyboardInterrupt
  ∧ unconstrain_pars_top (Except.error PyExc.keyboardInterrupt : Except PyExc α)
      = .error .keyboardInterrupt
  ∧ log_prob_top (Except.error PyExc.keyboardInterrupt : Except PyExc α)
      = .error .keyboardInterrupt
  ∧ grad_log_prob_top (Except.error PyExc.keyboardInterrupt : Except PyExc α)
      = .error .keyboardInterrupt :=
  ⟨rfl, rfl, rfl, rfl, rfl, rfl, rfl, rfl⟩

/-! ## Claims about the data normalizer (C8) -/

/-- C8: on success the normalizer returns a new mapping of the same
length in which every entry keeps its key, and every entry whose value
already serializes appears completely unchanged.  The source copies the
input dictionary before rewriting values (model.py line 36), so the
caller's mapping is untouched; the embedding is accordingly a pure
function of the input list, which makes non-mutation intrinsic. -/
theorem make_json_serializable_preserves_serializable_entries
    (data out : List (Str × PyValue))
    (h : _make_json_serializable data = .ok out) :
    List.Forall₂ (fun a b : Str × PyValue =>
      b.1 = a.1 ∧ (jsonSerializable a.2 = true → b = a)) data out := by
  induction data generalizing out with
  | nil =>
    simp only [_make_json_serializable, Except.ok.injEq] at h
    rw [← h]
    exact List.Forall₂.nil
  | cons kv rest ih =>
    obtain ⟨k, v⟩ := kv
    simp only [_make_json_serializable] at h
    by_cases hs : jsonSerializable v = true
    · rw [if_pos hs] at h
      cases hrec : _make_json_serializable rest with
      | error e => rw [hrec] at h; simp [Except.map] at h
      | ok tail =>
        rw [hrec] at h
        simp only [Except.map, Except.ok.injEq] at h
        rw [← h]
        exact List.Forall₂.cons ⟨rfl, fun _ => rfl⟩ (ih tail hrec)
    · rw [if_neg hs] at h
      have step : ∀ w : PyValue,
          (_make_json_serializable rest).map (fun tail => (k, w) :: tail) = .ok out →
          List.Forall₂ (fun a b : Str × PyValue =>
            b.1 = a.1 ∧ (jsonSerializable a.2 = true → b = a)) ((k, v) :: rest) out := by
        intro w hw
        cases hrec : _make_json_serializable rest with
        | error e => rw [hrec] at hw; simp [Except.map] at hw
        | ok tail =>
          rw [hrec] at hw
          simp only [Except.map, Except.ok.injEq] at hw
          rw [← hw]
          exact List.Forall₂.cons ⟨rfl, fun hj => absurd hj hs⟩ (ih tail hrec)
      by_cases h0 : isNdarray0d v = true
      · rw [if_pos h0] at h
        exact step (tolist v) h
      · rw [if_neg h0] at h
        by_cases h1 : isCollection v = true
        · rw [if_pos h1] at h
          exact step (tolist v) h
        · rw [if_neg h1] at h
          exact absurd h (by simp)

/-- Concrete input for the C8 witness: a serializable scalar, a numpy
array, a serializable native list. -/
def c8Data : List (Str × PyValue) :=
  [(str "a", .pyInt 1), (str "b", .npArray [.npScalar 2]), (str "c", .pyList [.pyInt 4])]

/-- The normalizer's output on `c8Data`. -/
def c8Out : List (Str × PyValue) :=
  [(str "a", .pyInt 1), (str "b", .pyList [.pyInt 2]), (str "c", .pyList [.pyInt 4])]

/-- C8 witness: the preservation theorem applied to a concrete mapping. -/
theorem make_json_serializable_preserves_witness :
    List.Forall₂ (fun a b : Str × PyValue =>
      b.1 = a.1 ∧ (jsonSerializable a.2 = true → b = a)) c8Data c8Out :=
  make_json_serializable_preserves_serializable_entries c8Data c8Out rfl

/-! ## Claims about sampling preconditions (C6) -/

/-- Whether an error is a caller error (a Python AssertionError or
ValueError raised by a violated interface contract), as opposed to a
server-reported or protocol failure. -/
def isCallerError : Err → Bool
  | .assertionError _ => true
  | .valueError _ => true
  | _ => false

/-- An outcome of `Model.sample` in which the call failed with a caller
error and no network request at all was issued. -/
def isCallerFailure : List Request × Except Err Fit → Bool
  | (reqs, .error e) => reqs.isEmpty && isCallerError e
  | (_, .ok _) => false

/-- C6: if the options carry a chain, data, or random_seed key, or the
caller-supplied initial-value list has the wrong length, `Model.sample`
fails with a caller error and its request trace is empty — the
violation is detected before any network request is issued. -/
theorem sample_checks_preconditions_before_network
    (m : Model) (kwargs : KwArgs) (server : Server) (fuel : Nat)
    (h : hasKey kwargs.opts (str "chain") = true ∨
      hasKey kwargs.opts (str "data") = true ∨
      hasKey kwargs.opts (str "random_seed") = true ∨
      ∃ l, kwargs.init = some l ∧ l.length ≠ kwargs.num_chains.getD 4) :
    isCallerFailure (m.sample kwargs server fuel) = true := by
  unfold Model.sample
  cases h1 : hasKey kwargs.opts (str "chain") with
  | true => simp [isCallerFailure, isCallerError]
  | false =>
  cases h2 : hasKey kwargs.opts (str "data") with
  | true => simp [isCallerFailure, isCallerError]
  | false =>
  cases h3 : hasKey kwargs.opts (str "random_seed") with
  | true => simp [isCallerFailure, isCallerError]
  | false =>
  rcases h with h | h | h | ⟨l, hl, hlen⟩
  · exact absurd h (by simp [h1])
  · exact absurd h (by simp [h2])
  · exact absurd h (by simp [h3])
  · simp [hl, hlen, bne_iff_ne, isCallerFailure, isCallerError]

/-- A server that answers every request successfully; used by concrete
witnesses. -/
def trivialServer : Server where
  createStatus := fun _ => 201
  createMessage := fun _ => []
  createOp := fun c =>
    { name := List.replicate c 'o', done := false, progress := none, result := none }
  poll := fun _ n =>
    { name := n, done := true, progress := none, result := some (.ok ('f' :: n)) }
  fitStatus := fun _ => 200
  fitBytes := fun n => 'B' :: n
  fitMessage := fun _ => []
  deleteStatus := fun _ => 200
  deleteMessage := fun _ => []

/-- Keyword arguments carrying the reserved key "chain". -/
def c6Kwargs : KwArgs := { num_chains := none, init := none, opts := [(str "chain", 1)] }

/-- A model descriptor with empty data and no seed. -/
def simpleModel : Model := { model_name := str "m", data := [], random_seed := none }

/-- C6 witness: the precondition theorem applied to a call whose options
carry the reserved key "chain". -/
theorem sample_preconditions_witness :
    isCallerFailure (simpleModel.sample c6Kwargs trivialServer 0) = true :=
  sample_checks_preconditions_before_network simpleModel c6Kwargs trivialServer 0
    (Or.inl (by decide))

/-! ## Claims about init-list consumption (C9) -/

/-- The payload loop pops one element of the caller's init list per
chain, so when the list length matches the chain count it is left empty
and each payload receives the successive elements in order. -/
theorem buildPayloadsFrom_consumes (m : Model) (opts : List (Str × Nat)) :
    ∀ (chains : List Nat) (init : List Init), init.length = chains.length →
      (buildPayloadsFrom m opts chains init).2 = [] ∧
      ((buildPayloadsFrom m opts chains init).1.map fun p => p.init) = init := by
  intro chains
  induction chains with
  | nil =>
    intro init hlen
    cases init with
    | nil => exact ⟨rfl, rfl⟩
    | cons i is => simp at hlen
  | cons c rest ih =>
    intro init hlen
    cases init with
    | nil => simp at hlen
    | cons i is =>
      simp only [List.length_cons, Nat.succ.injEq] at hlen
      obtain ⟨h1, h2⟩ := ih is hlen
      simp [buildPayloadsFrom, popFront, h1, h2]

/-- C9: `init.pop(0)` inside the payload loop (model.py line 108)
mutates the caller-supplied list in place: after building the payloads
for `num_chains` chains from a list of matching length, the caller's
list is empty, its elements having been moved one per chain into the
payloads in order. -/
theorem sample_consumes_caller_init_list
    (m : Model) (opts : List (Str × Nat)) (num_chains : Nat) (init : List Init)
    (hlen : init.length = num_chains) :
    (buildPayloads m opts num_chains init).2 = [] ∧
    ((buildPayloads m opts num_chains init).1.map fun p => p.init) = init := by
  have hc : (chainIds num_chains).length = num_chains := by simp [chainIds]
  exact buildPayloadsFrom_consumes m opts (chainIds num_chains) init (by rw [hlen, hc])

/-- C9 witness: the consumption theorem applied to two concrete
initial-value mappings for two chains. -/
theorem sample_consumes_init_witness :
    (buildPayloads simpleModel [] 2 [[(str "k", 5)], [(str "k", 6)]]).2 = [] ∧
    ((buildPayloads simpleModel [] 2 [[(str "k", 5)], [(str "k", 6)]]).1.map
      fun p => p.init) = [[(str "k", 5)], [(str "k", 6)]] :=
  sample_consumes_caller_init_list simpleModel [] 2 [[(str "k", 5)], [(str "k", 6)]]
    (by decide)

/-! ## Claims about unmatched progress messages (C10) -/

/-- C10: when a polled not-yet-done operation carries a non-empty
progress string with no "Iteration: i / max" match, the polling loop
fails with IndexError (`findall(...).pop(0)` on an empty list,
model.py lines 157–159) instead of skipping the message. -/
theorem unmatched_progress_message_aborts_polling
    (server : Server) (nc : Nat) (op : Operation) (rest : List Operation)
    (cur : List (Str × Nat)) (pb : PB) (t fuel : Nat) (msg : Str)
    (hdone : op.done = false)
    (hprog : (server.poll t op.name).progress = some msg)
    (hne : msg ≠ [])
    (hmatch : findIteration msg = none) :
    (pollLoop server nc (fuel + 1)
        { ops := op :: rest, aux := { current := cur, pb := pb, time := t } }).2
      = .error .indexError := by
  have hproc : processProgress nc (server.poll t op.name)
      { current := cur, pb := pb, time := t + 1 } = .error .indexError := by
    unfold processProgress
    rw [hprog]
    cases msg with
    | nil => exact absurd rfl hne
    | cons c cs => simp [hmatch]
  unfold pollLoop
  simp only [List.all_cons, hdone, Bool.false_and, Bool.false_eq_true, if_false]
  unfold sweepOps
  simp only [hdone, Bool.false_eq_true, if_false, hproc]

def c10Server : Server :=
  { trivialServer with
    poll := fun _ n =>
      { name := n, done := false,
        progress := some (str "gradient evaluation took 0.001 seconds"), result := none } }

/-- C10 witness: a single chain whose poll response carries a progress
string without an iteration match makes the loop fail with IndexError. -/
theorem unmatched_progress_witness :
    (pollLoop c10Server 1 1
        { ops := [{ name := str "o", done := false, progress := none, result := none }],
          aux := { current := [], pb := ⟨0, 0⟩, time := 0 } }).2
      = .error .indexError :=
  unmatched_progress_message_aborts_polling c10Server 1
    { name := str "o", done := false, progress := none, result := none } [] [] ⟨0, 0⟩ 0 0
    (str "gradient evaluation took 0.001 seconds") rfl rfl (by decide) rfl

/-! ## Claims about retrieval and cleanup (C2, C5) -/

/-- C2: on a successful retrieval, the request trace is — without a
seed — exactly one GET followed immediately by one DELETE per chain, in
chain order; with a seed it is exactly one GET per chain and no DELETE
at all (model.py lines 169–186). -/
theorem retrieve_delete_policy (server : Server) (ops : List Operation) :
    (∀ reqs outs, retrieve server none ops = (reqs, .ok outs) →
      reqs = ops.flatMap fun op =>
        [Request.getFit (fitNameOf op), Request.deleteFit (fitNameOf op)]) ∧
    (∀ s reqs outs, retrieve server (some s) ops = (reqs, .ok outs) →
      reqs = ops.map fun op => Request.getFit (fitNameOf op)) := by
  induction ops with
  | nil =>
    constructor
    · intro reqs outs h
      simp only [retrieve, Prod.mk.injEq] at h
      simp [← h.1]
    · intro s reqs outs h
      simp only [retrieve, Prod.mk.injEq] at h
      simp [← h.1]
  | cons op rest ih =>
    constructor
    · intro reqs outs h
      cases hres : op.result with
      | none => simp [retrieve, hres] at h
      | some r =>
        cases r with
        | err code message =>
          simp only [retrieve, hres] at h
          split at h <;> simp at h
        | ok fn =>
          simp only [retrieve, hres] at h
          split at h
          case isTrue => simp at h
          case isFalse =>
            split at h
            case isTrue =>
              cases hrec : retrieve server none rest with
              | mk reqs' r' =>
                rw [hrec] at h
                cases r' with
                | error e => simp [Except.map] at h
                | ok outs' =>
                  simp only [Except.map, Prod.mk.injEq, Except.ok.injEq] at h
                  have hreq := ih.1 reqs' outs' hrec
                  simp [← h.1, hreq, fitNameOf, hres, List.flatMap_cons]
            case isFalse => simp at h
    · intro s reqs outs h
      cases hres : op.result with
      | none => simp [retrieve, hres] at h
      | some r =>
        cases r with
        | err code message =>
          simp only [retrieve, hres] at h
          split at h <;> simp at h
        | ok fn =>
          simp only [retrieve, hres] at h
          split at h
          case isTrue => simp at h
          case isFalse =>
            cases hrec : retrieve server (some s) rest with
            | mk reqs' r' =>
              rw [hrec] at h
              cases r' with
              | error e => simp [Except.map] at h
              | ok outs' =>
                simp only [Except.map, Prod.mk.injEq, Except.ok.injEq] at h
                have hreq := ih.2 s reqs' outs' hrec
                simp [← h.1, hreq, fitNameOf, hres]

/-- Two finished operations with successful results, for the retrieval
witnesses. -/
def c2Ops : List Operation :=
  [{ name := str "a", done := true, progress := none, result := some (.ok (str "fa")) },
   { name := str "b", done := true, progress := none, result := some (.ok (str "fb")) }]

/-- C2 witness: the delete-policy theorem applied to a concrete
successful two-chain retrieval without a seed. -/
theorem retrieve_delete_policy_witness :
    [Request.getFit (str "fa"), Request.deleteFit (str "fa"),
     Request.getFit (str "fb"), Request.deleteFit (str "fb")] =
      c2Ops.flatMap (fun op =>
        [Request.getFit (fitNameOf op), Request.deleteFit (fitNameOf op)]) :=
  ((retrieve_delete_policy trivialServer c2Ops).1
    [Request.getFit (str "fa"), Request.deleteFit (str "fa"),
     Request.getFit (str "fb"), Request.deleteFit (str "fb")]
    [str "Bfa", str "Bfb"] rfl).symm

/-- C5: during retrieval in chain order, the first operation whose
result denotes failure makes the whole call fail with a RuntimeError
carrying the embedded server message, and no output list is produced
(model.py lines 170–178).  The operations before it must have succeeded
and the server must serve their fits, which the blanket status
hypotheses provide. -/
theorem retrieve_failure_aborts_call
    (server : Server) (seed : Option Nat) (pre post : List Operation)
    (op : Operation) (code message : Str)
    (hfit : ∀ n, server.fitStatus n = 200)
    (hdel : ∀ n, server.deleteStatus n = 200)
    (hpre : ∀ p ∈ pre, ∃ fn, p.result = some (.ok fn))
    (hop : op.result = some (.err code message))
    (hcode : startswith code (str "2") = false) :
    (retrieve server seed (pre ++ op :: post)).2 = .error (.runtimeError message) := by
  induction pre with
  | nil =>
    simp only [List.nil_append, retrieve, hop, hcode]
    simp
  | cons p ps ih =>
    obtain ⟨fn, hfn⟩ := hpre p (by simp)
    have ihx := ih fun q hq => hpre q (by simp [hq])
    simp only [List.cons_append, retrieve, hfn, hfit, hdel]
    cases seed with
    | none =>
      simp only [bne_self_eq_false, Bool.false_eq_true, if_false]
      cases hrec : retrieve server none (ps ++ op :: post) with
      | mk reqs' r' =>
        rw [hrec] at ihx
        simp only at ihx
        simp [ihx, Except.map]
    | some s =>
      simp only [bne_self_eq_false, Bool.false_eq_true, if_false]
      cases hrec : retrieve server (some s) (ps ++ op :: post) with
      | mk reqs' r' =>
        rw [hrec] at ihx
        simp only at ihx
        simp [ihx, Except.map]

/-- C5 witness: one successful chain followed by a failed one — the
whole retrieval fails with the failed chain's message. -/
theorem retrieve_failure_witness :
    (retrieve trivialServer none
        [{ name := str "a", done := true, progress := none, result := some (.ok (str "fa")) },
         { name := str "b", done := true, progress := none,
           result := some (.err (str "400") (str "boom")) }]).2
      = .error (.runtimeError (str "boom")) :=
  retrieve_failure_aborts_call trivialServer none
    [{ name := str "a", done := true, progress := none, result := some (.ok (str "fa")) }] []
    { name := str "b", done := true, progress := none,
      result := some (.err (str "400") (str "boom")) }
    (str "400") (str "boom")
    (fun _ => rfl) (fun _ => rfl)
    (by intro p hp; simp at hp; rw [hp]; exact ⟨str "fa", rfl⟩)
    rfl (by decide)

/-! ## Claims about the aggregate progress display (C4) -/

/-- One progress-processing step keeps the display equal to the sum of
the recorded per-chain iterations, and never changes a nonzero total. -/
theorem processProgress_ok_inv (nc : Nat) (op : Operation) (aux aux' : Aux)
    (h : processProgress nc op aux = .ok aux') :
    (aux.pb.progress = sumValues aux.current →
      aux'.pb.progress = sumValues aux'.current) ∧
    (aux.pb.maxSteps ≠ 0 → aux'.pb.maxSteps = aux.pb.maxSteps) := by
  cases hp : op.progress with
  | none =>
    simp only [processProgress, hp, Except.ok.injEq] at h
    subst h
    exact ⟨id, fun _ => rfl⟩
  | some msg =>
    by_cases he : msg.isEmpty = true
    · simp only [processProgress, hp, he, if_true, Except.ok.injEq] at h
      subst h
      exact ⟨id, fun _ => rfl⟩
    · simp only [processProgress, hp] at h
      rw [if_neg he] at h
      cases hf : findIteration msg with
      | none => simp only [hf] at h; exact absurd h (by simp)
      | some pr =>
        obtain ⟨it, mx⟩ := pr
        simp only [hf, Except.ok.injEq] at h
        subst h
        refine ⟨fun _ => rfl, fun hms => ?_⟩
        have hbe : (aux.pb.maxSteps == 0) = false := by simpa using hms
        simp [hbe]

/-- While the total is still zero, a matching progress message sets it
to the message's max multiplied by the chain count. -/
theorem processProgress_initializes (nc : Nat) (op : Operation) (aux aux' : Aux)
    (msg : Str) (it mx : Nat)
    (h0 : aux.pb.maxSteps = 0)
    (hp : op.progress = some msg)
    (hf : findIteration msg = some (it, mx))
    (h : processProgress nc op aux = .ok aux') :
    aux'.pb.maxSteps = mx * nc := by
  by_cases he : msg.isEmpty = true
  · cases msg with
    | nil => rw [show findIteration [] = none from rfl] at hf; exact absurd hf (by simp)
    | cons c cs => simp at he
  · simp only [processProgress, hp] at h
    rw [if_neg he] at h
    simp only [hf, Except.ok.injEq] at h
    subst h
    simp [h0]

/-- A polling sweep preserves the display invariant and the stability of
a nonzero total. -/
theorem sweepOps_display_inv (server : Server) (nc : Nat) :
    ∀ (ops : List Operation) (aux : Aux) (reqs : List Request)
      (ops' : List Operation) (aux' : Aux),
      sweepOps server nc ops aux = (reqs, .ok (ops', aux')) →
      (aux.pb.progress = sumValues aux.current →
        aux'.pb.progress = sumValues aux'.current) ∧
      (aux.pb.maxSteps ≠ 0 → aux'.pb.maxSteps = aux.pb.maxSteps) := by
  intro ops
  induction ops with
  | nil =>
    intro aux reqs ops' aux' h
    simp only [sweepOps, Prod.mk.injEq, Except.ok.injEq] at h
    rw [← h.2.2]
    exact ⟨id, fun _ => rfl⟩
  | cons op rest ih =>
    intro aux reqs ops' aux' h
    simp only [sweepOps] at h
    by_cases hd : op.done = true
    · rw [if_pos hd] at h
      cases hrec : sweepOps server nc rest aux with
      | mk reqs1 r1 =>
        rw [hrec] at h
        cases r1 with
        | error e => simp [Except.map] at h
        | ok pr =>
          obtain ⟨ops1, aux1⟩ := pr
          simp only [Except.map, Prod.mk.injEq, Except.ok.injEq] at h
          obtain ⟨-, -, haux⟩ := h
          rw [← haux]
          exact ih aux reqs1 ops1 aux1 hrec
    · rw [if_neg hd] at h
      cases hproc : processProgress nc (server.poll aux.time op.name)
          { aux with time := aux.time + 1 } with
      | error e => rw [hproc] at h; simp at h
      | ok aux2 =>
        rw [hproc] at h
        simp only [] at h
        cases hrec : sweepOps server nc rest aux2 with
        | mk reqs1 r1 =>
          rw [hrec] at h
          cases r1 with
          | error e => simp [Except.map] at h
          | ok pr =>
            obtain ⟨ops1, aux1⟩ := pr
            simp only [Except.map, Prod.mk.injEq, Except.ok.injEq] at h
            obtain ⟨-, -, haux⟩ := h
            rw [← haux]
            have h1 := processProgress_ok_inv nc (server.poll aux.time op.name)
              { aux with time := aux.time + 1 } aux2 hproc
            have h2 := ih aux2 reqs1 ops1 aux1 hrec
            refine ⟨fun hs => h2.1 (h1.1 hs), fun hm => ?_⟩
            have e2 : aux2.pb.maxSteps = aux.pb.maxSteps := h1.2 hm
            rw [h2.2 (by rw [e2]; exact hm), e2]

/-- The polling loop preserves the display invariant, never changes a
nonzero total, and on success every operation is done. -/
theorem pollLoop_display_inv (server : Server) (nc : Nat) :
    ∀ (fuel : Nat) (st st' : PollState) (reqs : List Request),
      pollLoop server nc fuel st = (reqs, .ok st') →
      (st.aux.pb.progress = sumValues st.aux.current →
        st'.aux.pb.progress = sumValues st'.aux.current) ∧
      (st.aux.pb.maxSteps ≠ 0 → st'.aux.pb.maxSteps = st.aux.pb.maxSteps) ∧
      st'.ops.all (fun o => o.done) = true := by
  intro fuel
  induction fuel with
  | zero =>
    intro st st' reqs h
    unfold pollLoop at h
    by_cases hall : st.ops.all (fun o => o.done) = true
    · rw [if_pos hall] at h
      simp only [Prod.mk.injEq, Except.ok.injEq] at h
      rw [← h.2]
      exact ⟨id, fun _ => rfl, hall⟩
    · rw [if_neg hall] at h; simp at h
  | succ fuel ih =>
    intro st st' reqs h
    unfold pollLoop at h
    by_cases hall : st.ops.all (fun o => o.done) = true
    · rw [if_pos hall] at h
      simp only [Prod.mk.injEq, Except.ok.injEq] at h
      rw [← h.2]
      exact ⟨id, fun _ => rfl, hall⟩
    · rw [if_neg hall] at h
      cases hsw : sweepOps server nc st.ops st.aux with
      | mk reqs1 r1 =>
        rw [hsw] at h
        cases r1 with
        | error e => simp at h
        | ok pr =>
          obtain ⟨ops1, aux1⟩ := pr
          simp only at h
          cases hrec : pollLoop server nc fuel { ops := ops1, aux := aux1 } with
          | mk reqs2 r2 =>
            rw [hrec] at h
            cases r2 with
            | error e => simp at h
            | ok st2 =>
              simp only [Prod.mk.injEq, Except.ok.injEq] at h
              rw [← h.2]
              have h1 := sweepOps_display_inv server nc st.ops st.aux reqs1 ops1 aux1 hsw
              have h2 := ih { ops := ops1, aux := aux1 } st2 reqs2 hrec
              refine ⟨fun hs => h2.1 (h1.1 hs), fun hm => ?_, h2.2.2⟩
              have e1 : aux1.pb.maxSteps = st.aux.pb.maxSteps := h1.2 hm
              have e2 := h2.2.1 (by simpa [e1] using hm)
              simpa [e1] using e2

/-- C4 (amended): throughout polling the displayed progress equals the
sum over chains of the latest-known iteration counts — the invariant
holds initially, is (re)established by every processed matching message,
and is preserved by every sweep and by the whole loop; the aggregate
total is set to the message's max multiplied by the chain count by any
matching message processed while the total is still zero, and once
nonzero it never changes.  Consequently the total is initialized exactly
once whenever the first matching message carries a nonzero
max-times-chain-count; a first match with max 0 leaves the total zero
and a later match re-initializes it (see the counterexample). -/
theorem aggregate_progress_invariants (server : Server) (nc : Nat) :
    (∀ (fuel : Nat) (st st' : PollState) (reqs : List Request),
      pollLoop server nc fuel st = (reqs, .ok st') →
      st.aux.pb.progress = sumValues st.aux.current →
      st'.aux.pb.progress = sumValues st'.aux.current)
  ∧ (∀ (fuel : Nat) (st st' : PollState) (reqs : List Request),
      pollLoop server nc fuel st = (reqs, .ok st') →
      st.aux.pb.maxSteps ≠ 0 → st'.aux.pb.maxSteps = st.aux.pb.maxSteps)
  ∧ (∀ (op : Operation) (aux aux' : Aux) (msg : Str) (it mx : Nat),
      aux.pb.maxSteps = 0 → op.progress = some msg →
      findIteration msg = some (it, mx) →
      processProgress nc op aux = .ok aux' → aux'.pb.maxSteps = mx * nc)
  ∧ (∀ (op : Operation) (aux aux' : Aux),
      processProgress nc op aux = .ok aux' →
      aux.pb.progress = sumValues aux.current →
      aux'.pb.progress = sumValues aux'.current) :=
  ⟨fun fuel st st' reqs h => (pollLoop_display_inv server nc fuel st st' reqs h).1,
   fun fuel st st' reqs h => (pollLoop_display_inv server nc fuel st st' reqs h).2.1,
   fun op aux aux' msg it mx h0 hp hf h =>
     processProgress_initializes nc op aux aux' msg it mx h0 hp hf h,
   fun op aux aux' h => (processProgress_ok_inv nc op aux aux' h).1⟩

/-- A schedule on which the first matching progress message reports
max 0: chain "x" reports "Iteration: 0 / 0" and chain "y" reports
"Iteration: 5 / 100", both finishing at once. -/
def c4Server : Server :=
  { trivialServer with
    poll := fun _ n =>
      if n == str "x" then
        { name := n, done := true, progress := some (str "Iteration: 0 / 0"),
          result := some (.ok (str "fx")) }
      else
        { name := n, done := true, progress := some (str "Iteration: 5 / 100"),
          result := some (.ok (str "fy")) } }

/-- C4 counterexample: with two chains whose first matching message is
"Iteration: 0 / 0", the lazily-started total (0 times 2 = 0) leaves
`get_max_steps()` at zero, so the next matching message "Iteration: 5 /
100" starts the bar again: the final total is 200, not the claimed
first-match value 0 times the chain count — the total was initialized
twice, refuting "initialized exactly once, on the first matching
progress message". -/
theorem progress_total_reinitialized_counterexample :
    ((pollLoop c4Server 2 2
        { ops := [{ name := str "x", done := false, progress := none, result := none },
                  { name := str "y", done := false, progress := none, result := none }],
          aux := { current := [], pb := ⟨0, 0⟩, time := 0 } }).2.map
      fun st => st.aux.pb.maxSteps) = .ok 200
    ∧ findIteration (str "Iteration: 0 / 0") = some (0, 0)
    ∧ 0 * 2 ≠ 200 :=
  ⟨rfl, rfl, by decide⟩

/-- C4 witness: the invariants applied to a concrete run — the display
equals the recorded sum after a successful two-chain poll, and a
matching message with max 100 observed at total zero sets the total to
200. -/
theorem aggregate_progress_invariants_witness :
    (pollLoop c4Server 2 2
        { ops := [{ name := str "x", done := false, progress := none, result := none },
                  { name := str "y", done := false, progress := none, result := none }],
          aux := { current := [], pb := ⟨0, 0⟩, time := 0 } }).2 =
      .ok { ops := [{ name := str "x", done := true,
                      progress := some (str "Iteration: 0 / 0"),
                      result := some (.ok (str "fx")) },
                    { name := str "y", done := true,
                      progress := some (str "Iteration: 5 / 100"),
                      result := some (.ok (str "fy")) }],
            aux := { current := [(str "x", 0), (str "y", 5)], pb := ⟨200, 5⟩, time := 2 } }
    ∧ (5 : Nat) = sumValues [(str "x", 0), (str "y", 5)]
    ∧ (200 : Nat) = 100 * 2 := by
  refine ⟨rfl, ?_, rfl⟩
  have h := (aggregate_progress_invariants c4Server 2).1 2
    { ops := [{ name := str "x", done := false, progress := none, result := none },
              { name := str "y", done := false, progress := none, result := none }],
      aux := { current := [], pb := ⟨0, 0⟩, time := 0 } }
    { ops := [{ name := str "x", done := true,
                progress := some (str "Iteration: 0 / 0"),
                result := some (.ok (str "fx")) },
              { name := str "y", done := true,
                progress := some (str "Iteration: 5 / 100"),
                result := some (.ok (str "fy")) }],
      aux := { current := [(str "x", 0), (str "y", 5)], pb := ⟨200, 5⟩, time := 2 } }
    (pollLoop c4Server 2 2
      { ops := [{ name := str "x", done := false, progress := none, result := none },
                { name := str "y", done := false, progress := none, result := none }],
        aux := { current := [], pb := ⟨0, 0⟩, time := 0 } }).1
    (by rfl) rfl
  exact h

/-! ## Claims about result order (C1) -/

/-- Successful submission creates one operation per payload, in payload
(chain) order. -/
theorem submit_all_created (server : Server) :
    ∀ (payloads : List Payload), (∀ p ∈ payloads, server.createStatus p.chain = 201) →
      submit server payloads =
        (payloads.map fun p => Request.createFit p.chain,
         .ok (payloads.map fun p => server.createOp p.chain)) := by
  intro payloads
  induction payloads with
  | nil => intro _; rfl
  | cons p rest ih =>
    intro h
    have hp := h p (by simp)
    have ihx := ih fun q hq => h q (by simp [hq])
    simp [submit, hp, ihx, Except.map]

/-- The payloads are built for the given chain ids in order. -/
theorem buildPayloadsFrom_chains (m : Model) (opts : List (Str × Nat)) :
    ∀ (chains : List Nat) (init : List Init),
      ((buildPayloadsFrom m opts chains init).1).map (fun p => p.chain) = chains := by
  intro chains
  induction chains with
  | nil => intro init; rfl
  | cons c rest ih => intro init; simp [buildPayloadsFrom, ih]

/-- The payloads built by `Model.sample` carry the chain ids 1..N in
order. -/
theorem buildPayloads_chains (m : Model) (opts : List (Str × Nat)) (nc : Nat)
    (init : List Init) :
    ((buildPayloads m opts nc init).1).map (fun p => p.chain) = chainIds nc :=
  buildPayloadsFrom_chains m opts (chainIds nc) init

/-- The invariant each local operation copy keeps relative to the name
it was created with: its name never changes, and once it is done its
result names the fit `fitOf` assigns to that operation name. -/
def opInv (fitOf : Str → Str) (name : Str) (op : Operation) : Prop :=
  op.name = name ∧ (op.done = true → op.result = some (.ok (fitOf name)))

/-- Mapping two functions over one list yields pointwise-related lists. -/
theorem forall₂_map_map {α β γ : Type} (R : β → γ → Prop) (f : α → β) (g : α → γ) :
    ∀ (l : List α), (∀ x ∈ l, R (f x) (g x)) → List.Forall₂ R (l.map f) (l.map g) := by
  intro l
  induction l with
  | nil => intro _; exact .nil
  | cons x xs ih =>
    intro h
    exact .cons (h x (by simp)) (ih fun y hy => h y (by simp [hy]))

/-- The names of operations satisfying the invariant are exactly the
recorded name list. -/
theorem forall₂_opInv_names (fitOf : Str → Str) (names : List Str) (ops : List Operation)
    (h : List.Forall₂ (opInv fitOf) names ops) :
    ops.map (fun o => o.name) = names := by
  induction h with
  | nil => rfl
  | cons hx hrest ih => simp [ih, hx.1]

/-- Once all invariant-satisfying operations are done, each one's result
names its fit. -/
theorem forall₂_opInv_results (fitOf : Str → Str) (names : List Str) (ops : List Operation)
    (h : List.Forall₂ (opInv fitOf) names ops) :
    ops.all (fun o => o.done) = true →
    ∀ op ∈ ops, op.result = some (.ok (fitOf op.name)) := by
  induction h with
  | nil => intro _ op hop; simp at hop
  | cons hx hrest ih =>
    intro hall op hop
    simp only [List.all_cons, Bool.and_eq_true] at hall
    rcases List.mem_cons.mp hop with rfl | hmem
    · rw [hx.1]
      exact hx.2 hall.1
    · exact ih hall.2 op hmem

/-- A polling sweep preserves the per-operation invariant: finished
operations are kept, unfinished ones are replaced by the server's
response, whose name matches the polled name and whose result names the
fit once done. -/
theorem sweepOps_preserves_opInv (server : Server) (nc : Nat) (fitOf : Str → Str)
    (hname : ∀ t n, (server.poll t n).name = n)
    (hdone : ∀ t n, (server.poll t n).done = true →
      (server.poll t n).result = some (.ok (fitOf n))) :
    ∀ (ops : List Operation) (names : List Str) (aux : Aux) (reqs : List Request)
      (ops' : List Operation) (aux' : Aux),
      sweepOps server nc ops aux = (reqs, .ok (ops', aux')) →
      List.Forall₂ (opInv fitOf) names ops →
      List.Forall₂ (opInv fitOf) names ops' := by
  intro ops
  induction ops with
  | nil =>
    intro names aux reqs ops' aux' h hf
    simp only [sweepOps, Prod.mk.injEq, Except.ok.injEq] at h
    cases hf
    rw [← h.2.1]
    exact .nil
  | cons op rest ih =>
    intro names aux reqs ops' aux' h hf
    cases hf with
    | cons hx hrest =>
      simp only [sweepOps] at h
      by_cases hd : op.done = true
      · rw [if_pos hd] at h
        cases hrec : sweepOps server nc rest aux with
        | mk reqs1 r1 =>
          rw [hrec] at h
          cases r1 with
          | error e => simp [Except.map] at h
          | ok pr =>
            obtain ⟨ops1, aux1⟩ := pr
            simp only [Except.map, Prod.mk.injEq, Except.ok.injEq] at h
            obtain ⟨-, hops, -⟩ := h
            rw [← hops]
            exact .cons hx (ih _ aux reqs1 ops1 aux1 hrec hrest)
      · rw [if_neg hd] at h
        cases hproc : processProgress nc (server.poll aux.time op.name)
            { aux with time := aux.time + 1 } with
        | error e => rw [hproc] at h; simp at h
        | ok aux2 =>
          rw [hproc] at h
          simp only [] at h
          cases hrec : sweepOps server nc rest aux2 with
          | mk reqs1 r1 =>
            rw [hrec] at h
            cases r1 with
            | error e => simp [Except.map] at h
            | ok pr =>
              obtain ⟨ops1, aux1⟩ := pr
              simp only [Except.map, Prod.mk.injEq, Except.ok.injEq] at h
              obtain ⟨-, hops, -⟩ := h
              rw [← hops]
              refine .cons ⟨?_, ?_⟩ (ih _ aux2 reqs1 ops1 aux1 hrec hrest)
              · rw [hname aux.time op.name, hx.1]
              · intro hdn
                rw [← hx.1]
                exact hdone aux.time op.name hdn

/-- The polling loop preserves the per-operation invariant, and on
success every operation is done. -/
theorem pollLoop_preserves_opInv (server : Server) (nc : Nat) (fitOf : Str → Str)
    (hname : ∀ t n, (server.poll t n).name = n)
    (hdone : ∀ t n, (server.poll t n).done = true →
      (server.poll t n).result = some (.ok (fitOf n))) :
    ∀ (fuel : Nat) (st st' : PollState) (reqs : List Request) (names : List Str),
      pollLoop server nc fuel st = (reqs, .ok st') →
      List.Forall₂ (opInv fitOf) names st.ops →
      List.Forall₂ (opInv fitOf) names st'.ops ∧
        st'.ops.all (fun o => o.done) = true := by
  intro fuel
  induction fuel with
  | zero =>
    intro st st' reqs names h hf
    unfold pollLoop at h
    by_cases hall : st.ops.all (fun o => o.done) = true
    · rw [if_pos hall] at h
      simp only [Prod.mk.injEq, Except.ok.injEq] at h
      rw [← h.2]
      exact ⟨hf, hall⟩
    · rw [if_neg hall] at h; simp at h
  | succ fuel ih =>
    intro st st' reqs names h hf
    unfold pollLoop at h
    by_cases hall : st.ops.all (fun o => o.done) = true
    · rw [if_pos hall] at h
      simp only [Prod.mk.injEq, Except.ok.injEq] at h
      rw [← h.2]
      exact ⟨hf, hall⟩
    · rw [if_neg hall] at h
      cases hsw : sweepOps server nc st.ops st.aux with
      | mk reqs1 r1 =>
        rw [hsw] at h
        cases r1 with
        | error e => simp at h
        | ok pr =>
          obtain ⟨ops1, aux1⟩ := pr
          simp only at h
          cases hrec : pollLoop server nc fuel { ops := ops1, aux := aux1 } with
          | mk reqs2 r2 =>
            rw [hrec] at h
            cases r2 with
            | error e => simp at h
            | ok st2 =>
              simp only [Prod.mk.injEq, Except.ok.injEq] at h
              rw [← h.2]
              exact ih { ops := ops1, aux := aux1 } st2 reqs2 names hrec
                (sweepOps_preserves_opInv server nc fitOf hname hdone
                  st.ops names st.aux reqs1 ops1 aux1 hsw hf)

/-- When every operation carries a successful result and the server
serves and deletes fits successfully, retrieval succeeds and returns the
fit bytes of each operation's fit, in operations order. -/
theorem retrieve_all_ok (server : Server) (seed : Option Nat) (fitOf : Str → Str)
    (hfit : ∀ n, server.fitStatus n = 200) (hdel : ∀ n, server.deleteStatus n = 200) :
    ∀ (ops : List Operation),
      (∀ op ∈ ops, op.result = some (.ok (fitOf op.name))) →
      (retrieve server seed ops).2 =
        .ok (ops.map fun op => server.fitBytes (fitOf op.name)) := by
  intro ops
  induction ops with
  | nil => intro _; rfl
  | cons op rest ih =>
    intro h
    have hop := h op (by simp)
    have ihx := ih fun q hq => h q (by simp [hq])
    cases hrec : retrieve server seed rest with
    | mk reqs1 r1 =>
      rw [hrec] at ihx
      simp only at ihx
      cases seed with
      | none =>
        simp [retrieve, hop, hrec, hfit, hdel, ihx, Except.map]
      | some s =>
        simp [retrieve, hop, hrec, hfit, ihx, Except.map]

/-- C1: under a server that accepts every submission, preserves
operation names while polling, reports a fixed fit name per operation
once done, and serves every fit — but with an arbitrary completion
schedule — a successful `Model.sample` returns the chain outputs in
chain-id order 1..N: the i-th output is the bytes of the fit belonging
to the operation created for chain i. -/
theorem sample_output_order
    (m : Model) (kwargs : KwArgs) (server : Server) (fuel : Nat)
    (fitOf : Str → Str) (fit : Fit)
    (h201 : ∀ c, server.createStatus c = 201)
    (hnew : ∀ c, (server.createOp c).done = false)
    (hname : ∀ t n, (server.poll t n).name = n)
    (hdone : ∀ t n, (server.poll t n).done = true →
      (server.poll t n).result = some (.ok (fitOf n)))
    (hfit : ∀ n, server.fitStatus n = 200)
    (hdel : ∀ n, server.deleteStatus n = 200)
    (hrun : (m.sample kwargs server fuel).2 = .ok fit) :
    fit.stan_outputs = (chainIds (kwargs.num_chains.getD 4)).map
      (fun c => server.fitBytes (fitOf ((server.createOp c).name))) := by
  unfold Model.sample at hrun
  split at hrun
  · simp at hrun
  split at hrun
  · simp at hrun
  split at hrun
  · simp at hrun
  simp only [] at hrun
  split at hrun
  · simp at hrun
  unfold sampleGo at hrun
  rw [submit_all_created server _ (fun p _ => h201 p.chain)] at hrun
  simp only [] at hrun
  cases hpoll : pollLoop server (kwargs.num_chains.getD 4) fuel
      { ops := ((buildPayloads m kwargs.opts (kwargs.num_chains.getD 4)
          (kwargs.init.getD (List.replicate (kwargs.num_chains.getD 4) []))).1).map
          fun p => server.createOp p.chain,
        aux := { current := [], pb := ⟨0, 0⟩, time := 0 } } with
  | mk reqs2 r2 =>
    rw [hpoll] at hrun
    cases r2 with
    | error e => simp at hrun
    | ok st =>
      simp only [] at hrun
      cases hret : retrieve server m.random_seed st.ops with
      | mk reqs3 r3 =>
        rw [hret] at hrun
        cases r3 with
        | error e => simp at hrun
        | ok outs =>
          simp only [Except.ok.injEq] at hrun
          have hinit : List.Forall₂ (opInv fitOf)
              (((buildPayloads m kwargs.opts (kwargs.num_chains.getD 4)
                  (kwargs.init.getD (List.replicate (kwargs.num_chains.getD 4) []))).1).map
                fun p => (server.createOp p.chain).name)
              (((buildPayloads m kwargs.opts (kwargs.num_chains.getD 4)
                  (kwargs.init.getD (List.replicate (kwargs.num_chains.getD 4) []))).1).map
                fun p => server.createOp p.chain) :=
            forall₂_map_map _ _ _ _
              (fun p _ => ⟨rfl, fun hd => absurd hd (by simp [hnew p.chain])⟩)
          have hpres := pollLoop_preserves_opInv server (kwargs.num_chains.getD 4) fitOf
            hname hdone fuel _ st reqs2 _ hpoll hinit
          have hres := forall₂_opInv_results fitOf _ st.ops hpres.1 hpres.2
          have hretok := retrieve_all_ok server m.random_seed fitOf hfit hdel st.ops hres
          rw [hret] at hretok
          simp only [Except.ok.injEq] at hretok
          have e1 := forall₂_opInv_names fitOf _ st.ops hpres.1
          rw [← hrun]
          show outs = _
          rw [hretok]
          have e2 : st.ops.map (fun op => server.fitBytes (fitOf op.name)) =
              (st.ops.map fun o => o.name).map fun n => server.fitBytes (fitOf n) := by
            simp [List.map_map, Function.comp]
          rw [e2, e1, List.map_map]
          rw [show ((buildPayloads m kwargs.opts (kwargs.num_chains.getD 4)
              (kwargs.init.getD (List.replicate (kwargs.num_chains.getD 4) []))).1).map
              ((fun n => server.fitBytes (fitOf n)) ∘ fun p => (server.createOp p.chain).name)
            = (((buildPayloads m kwargs.opts (kwargs.num_chains.getD 4)
              (kwargs.init.getD (List.replicate (kwargs.num_chains.getD 4) []))).1).map
                (fun p => p.chain)).map
                  (fun c => server.fitBytes (fitOf ((server.createOp c).name))) by
            simp [List.map_map, Function.comp]]
          rw [buildPayloads_chains]

/-- The fit resource name the C1 witness server associates with each
operation name. -/
def c1FitOf (n : Str) : Str := 'f' :: n

/-- A three-chain server on which chain 3 finishes immediately while
chains 1 and 2 finish only from the fifth poll request on — an
out-of-order completion schedule. -/
def c1Server : Server where
  createStatus := fun _ => 201
  createMessage := fun _ => []
  createOp := fun c =>
    { name := List.replicate c 'o', done := false, progress := none, result := none }
  poll := fun t n =>
    { name := n, done := (n == List.replicate 3 'o') || decide (4 ≤ t),
      progress := none, result := some (.ok (c1FitOf n)) }
  fitStatus := fun _ => 200
  fitBytes := fun n => 'B' :: n
  fitMessage := fun _ => []
  deleteStatus := fun _ => 200
  deleteMessage := fun _ => []

/-- Three chains, no explicit inits, no extra options. -/
def c1Kwargs : KwArgs := { num_chains := some 3, init := none, opts := [] }

/-- The fit produced by the C1 witness run. -/
def c1Fit : Fit :=
  { stan_outputs := [str "Bfo", str "Bfoo", str "Bfooo"], num_chains := 3,
    num_warmup := 1000, num_samples := 1000, num_thin := 1, save_warmup := 0 }

/-- C1 witness: the order theorem applied to a concrete run in which
chain 3 reports done before chains 1 and 2; the outputs are still in
chain order 1, 2, 3. -/
theorem sample_output_order_witness :
    c1Fit.stan_outputs = (chainIds 3).map
      (fun c => c1Server.fitBytes (c1FitOf ((c1Server.createOp c).name))) ∧
    (simpleModel.sample c1Kwargs c1Server 10).2 = .ok c1Fit :=
  ⟨sample_output_order simpleModel c1Kwargs c1Server 10 c1FitOf c1Fit
    (fun _ => rfl) (fun _ => rfl) (fun _ _ => rfl) (fun _ _ _ => rfl)
    (fun _ => rfl) (fun _ => rfl) (by rfl),
   by rfl⟩

end PyStan
